import Mathlib

/-!
Verification of the BGN blog-automation core (interview signal extractor,
compliance checker, content assembler) against its natural-language
specification.  The Python sources in `src/main.py` (classes
`SafeInterviewAnalyzer`, `SafeContentGenerator`) and
`src/src/analyzers/interview_analyzer.py` (class `BGNInterviewAnalyzer`)
are embedded shallowly: strings become `String`/`List Char`, floats become
`ℚ`, the fixed regular expressions used by the extractor are embedded as
dedicated scanning functions with Python `re.search` semantics (leftmost
match, greedy/lazy exactly as the concrete pattern dictates), and Python
`str` methods (`strip`, `count`, containment, `split`) are embedded with
their documented semantics.  Whitespace and digit classes are modelled on
the ASCII range, which is the range exercised by every pattern table in the
source.  Non-deterministic pieces (timestamps from `datetime.now()`, the
OpenAI network calls) are omitted: the embedded pipeline is the deterministic
fallback path of the source, and the metadata record keeps only the
deterministic fields (confidence score, content length).
-/

/-- Python `\s` / `str.strip` whitespace class, restricted to ASCII
(space, tab, newline, carriage return, vertical tab, form feed). -/
def isPySpace (c : Char) : Bool :=
  c = ' ' || c = '\t' || c = '\n' || c = '\r' || c = '\x0b' || c = '\x0c'

/-- The Hangul syllable class `[가-힣]` used by the name patterns. -/
def isHangul (c : Char) : Bool :=
  '가' ≤ c && c ≤ '힣'

/-- Python substring containment `needle in hay` (empty needle is contained). -/
def subOccurs (needle : List Char) : List Char → Bool
  | [] => needle.isEmpty
  | c :: t => needle.isPrefixOf (c :: t) || subOccurs needle t

/-- `needle in hay` on strings, as used all over the extractor. -/
def strContains (needle hay : String) : Bool :=
  subOccurs needle.data hay.data

/-- Fuel-indexed helper for `countOcc`; fuel bounds the number of scan
steps, and every step consumes at least one character, so fuel equal to
the length of the haystack is always enough. -/
def countOccAux (needle : List Char) : Nat → List Char → Nat
  | 0, _ => 0
  | _ + 1, [] => 0
  | fuel + 1, c :: t =>
    if needle.isPrefixOf (c :: t) then
      1 + countOccAux needle fuel ((c :: t).drop needle.length)
    else
      countOccAux needle fuel t

/-- Python `hay.count(needle)`: non-overlapping occurrences, scanning left
to right (the source only ever counts non-empty needles). -/
def countOcc (needle hay : List Char) : Nat :=
  countOccAux needle hay.length hay

/-- Python `str.strip()`: drop leading and trailing whitespace. -/
def stripL (l : List Char) : List Char :=
  ((l.dropWhile isPySpace).reverse.dropWhile isPySpace).reverse

/-- Replace every maximal run of characters satisfying `p` by the single
character `rep`; this is `re.sub(p+, rep, ·)` for a character class `p`. -/
def collapseRuns (p : Char → Bool) (rep : Char) : List Char → List Char
  | [] => []
  | c :: t =>
    if p c then
      if t.head?.any p then collapseRuns p rep t
      else rep :: collapseRuns p rep t
    else c :: collapseRuns p rep t

/-- `SafeInterviewAnalyzer._preprocess_text` (src/main.py:379-383):
`re.sub(r'\n+', '\n', text)`, then `re.sub(r'\s+', ' ', text)`, then
`text.strip()`. -/
def preprocess_text (s : String) : String :=
  String.mk (stripL (collapseRuns isPySpace ' '
    (collapseRuns (fun c => c = '\n') '\n' s.data)))

/-- `Settings.PROHIBITED_KEYWORDS` (src/main.py:109-112), the fixed
prohibited-phrase list of the medical-advertising compliance check. -/
def PROHIBITED_KEYWORDS : List String :=
  ["완치", "완전히 낫는다", "100% 성공", "부작용 없음",
   "세계 최고", "국내 최고", "효과 보장", "영구적"]

/-- `SafeContentGenerator._check_medical_compliance` (src/main.py:856-864):
score starts at 1.0, drops 0.2 for each prohibited keyword contained in the
content, and the result is floored at 0.0. -/
def check_medical_compliance (content : String) : ℚ :=
  max (PROHIBITED_KEYWORDS.foldl
    (fun score kw => if strContains kw content then score - 1/5 else score) 1) 0

/-- The violation list built inside
`BGNInterviewAnalyzer._check_medical_compliance`
(src/src/analyzers/interview_analyzer.py:591-603): every prohibited keyword
contained in the text, in table order.  The keyword table itself lives in
`config/settings.py`, which is not part of the sources; it is mirrored from
the identical `Settings.PROHIBITED_KEYWORDS` constant of src/main.py. -/
def compliance_violations (text : String) : List String :=
  PROHIBITED_KEYWORDS.filter (fun kw => strContains kw text)

/-- Return value of `BGNInterviewAnalyzer._check_medical_compliance`:
`True` exactly when no prohibited keyword occurs. -/
def analyzer_check_medical_compliance (text : String) : Bool :=
  (compliance_violations text).isEmpty

/-- Reading time as computed by `SafeContentGenerator.generate_content`
(src/main.py:628): `max(1, len(main_content) // 300)` — integer floor
division. -/
def estimated_reading_time (main_content : String) : Nat :=
  max 1 (main_content.length / 300)

/-- Modelled from the spec: "Reading-time = max(1, ceil(character_count /
300))" — the rounded-up variant the specification prescribes, for
comparison with the `estimated_reading_time` actually computed by the
source. -/
def spec_reading_time (main_content : String) : Nat :=
  max 1 ((main_content.length + 299) / 300)

/-- `EmployeeProfile` dataclass (src/main.py:129-140) after
`__post_init__`: the list field is always a concrete (possibly empty)
list. -/
structure EmployeeProfile where
  name : String
  position : String
  department : String
  experience_years : Nat
  specialty_areas : List String
deriving DecidableEq

/-- The dataclass constructor of `EmployeeProfile`: a `None` argument for
the list field is turned into `[]` by `__post_init__`. -/
def EmployeeProfile.ofArgs (name position department : String)
    (experience_years : Nat) (specialty_areas : Option (List String)) :
    EmployeeProfile :=
  ⟨name, position, department, experience_years, specialty_areas.getD []⟩

/-- `PersonalityTraits` dataclass (src/main.py:142-155). -/
structure PersonalityTraits where
  tone_style : String
  frequent_expressions : List String
  communication_style : String
  personality_keywords : List String
  formality_level : String
deriving DecidableEq

/-- Dataclass constructor of `PersonalityTraits` with `__post_init__`
applied to the two list fields. -/
def PersonalityTraits.ofArgs (tone_style : String)
    (frequent_expressions : Option (List String))
    (communication_style : String)
    (personality_keywords : Option (List String))
    (formality_level : String) : PersonalityTraits :=
  ⟨tone_style, frequent_expressions.getD [], communication_style,
   personality_keywords.getD [], formality_level⟩

/-- `ProfessionalKnowledge` dataclass (src/main.py:157-174). -/
structure ProfessionalKnowledge where
  procedures : List String
  equipment : List String
  processes : List String
  technical_terms : List String
  expertise_level : String
deriving DecidableEq

/-- Dataclass constructor of `ProfessionalKnowledge` with `__post_init__`
applied to the four list fields. -/
def ProfessionalKnowledge.ofArgs (procedures equipment processes
    technical_terms : Option (List String)) (expertise_level : String) :
    ProfessionalKnowledge :=
  ⟨procedures.getD [], equipment.getD [], processes.getD [],
   technical_terms.getD [], expertise_level⟩

/-- `CustomerInsights` dataclass (src/main.py:176-189). -/
structure CustomerInsights where
  frequent_questions : List String
  customer_feedback : List String
  target_demographics : List String
deriving DecidableEq

/-- Dataclass constructor of `CustomerInsights` with `__post_init__`
applied to the three list fields. -/
def CustomerInsights.ofArgs (frequent_questions customer_feedback
    target_demographics : Option (List String)) : CustomerInsights :=
  ⟨frequent_questions.getD [], customer_feedback.getD [],
   target_demographics.getD []⟩

/-- `HospitalStrengths` dataclass (src/main.py:191-204). -/
structure HospitalStrengths where
  competitive_advantages : List String
  unique_services : List String
  location_benefits : List String
deriving DecidableEq

/-- Dataclass constructor of `HospitalStrengths` with `__post_init__`
applied to the three list fields. -/
def HospitalStrengths.ofArgs (competitive_advantages unique_services
    location_benefits : Option (List String)) : HospitalStrengths :=
  ⟨competitive_advantages.getD [], unique_services.getD [],
   location_benefits.getD []⟩

/-- The deterministic part of the analysis metadata dictionary
(src/main.py:360-364): confidence score and content length.  The
`analysis_date` timestamp is non-deterministic I/O and is omitted. -/
structure AnalysisMetadata where
  confidence_score : ℚ
  content_length : Nat
deriving DecidableEq

/-- `InterviewAnalysisResult` dataclass (src/main.py:206-222). -/
structure InterviewAnalysisResult where
  employee : EmployeeProfile
  personality : PersonalityTraits
  knowledge : ProfessionalKnowledge
  customer_insights : CustomerInsights
  hospital_strengths : HospitalStrengths
  analysis_metadata : AnalysisMetadata
deriving DecidableEq

/-- Generic `re.search` driver: try the match function at every suffix,
leftmost position first, exactly like Python `re.search` scanning. -/
def scanFirst (f : List Char → Option (List Char)) : List Char → Option (List Char)
  | [] => f []
  | c :: cs =>
    match f (c :: cs) with
    | some r => some r
    | none => scanFirst f cs

/-- Attempt of `r'저는\s*([가-힣]{2,4})'` at one position: the literal,
then greedy whitespace, then a greedy 2-to-4 Hangul capture. -/
def try_name_pat1 (l : List Char) : Option (List Char) :=
  if "저는".data.isPrefixOf l then
    let run := ((l.drop 2).dropWhile isPySpace).takeWhile isHangul
    if 2 ≤ run.length then some (run.take 4) else none
  else none

/-- Attempt of `r'([가-힣]{2,4})\s*(대리|과장|팀장)'` at one position for a
fixed capture width `k`: `k` Hangul syllables, greedy whitespace, then one
of the three title literals. -/
def name_pat2_at (k : Nat) (l : List Char) : Option (List Char) :=
  let pre := l.take k
  if pre.length = k && pre.all isHangul &&
      ["대리", "과장", "팀장"].any
        (fun t => t.data.isPrefixOf ((l.drop k).dropWhile isPySpace)) then
    some pre
  else none

/-- Attempt of `r'([가-힣]{2,4})\s*(대리|과장|팀장)'` at one position:
greedy `{2,4}` backtracks from width 4 down to 2. -/
def try_name_pat2 (l : List Char) : Option (List Char) :=
  (name_pat2_at 4 l).orElse fun _ =>
    (name_pat2_at 3 l).orElse fun _ => name_pat2_at 2 l

/-- Attempt of `r'제가\s*([가-힣]{2,4})'` at one position. -/
def try_name_pat3 (l : List Char) : Option (List Char) :=
  if "제가".data.isPrefixOf l then
    let run := ((l.drop 2).dropWhile isPySpace).takeWhile isHangul
    if 2 ≤ run.length then some (run.take 4) else none
  else none

/-- Name extraction of `SafeInterviewAnalyzer._extract_employee_info`
(src/main.py:390-400): the three patterns are tried in list order and the
first one with a search hit provides the name; no hit leaves it empty. -/
def extract_name (l : List Char) : String :=
  match scanFirst try_name_pat1 l with
  | some n => String.mk n
  | none =>
    match scanFirst try_name_pat2 l with
    | some n => String.mk n
    | none =>
      match scanFirst try_name_pat3 l with
      | some n => String.mk n
      | none => ""

/-- Lazy `.*?(alt₁|alt₂|…)` tail: scan forward without crossing a newline
(`.` does not match `'\n'`) until one of the alternatives starts. -/
def lazy_has (alts : List String) : List Char → Bool
  | [] => false
  | c :: cs =>
    alts.any (fun a => a.data.isPrefixOf (c :: cs)) ||
      (c ≠ '\n' && lazy_has alts cs)

/-- Attempt of `r'(\d+)년.*?(경력|차)'` at one position: a greedy digit
capture, the literal `년`, then a lazy gap to one of the alternatives. -/
def try_exp_pat1 (l : List Char) : Option (List Char) :=
  let run := l.takeWhile Char.isDigit
  if 1 ≤ run.length && (l.drop run.length).head? = some '년' &&
      lazy_has ["경력", "차"] (l.drop (run.length + 1)) then
    some run
  else none

/-- Lazy search for `(\d+)년` after the `경력` literal: at each position
(never crossing a newline) try a greedy digit run followed by `년`. -/
def find_digits_year : List Char → Option (List Char)
  | [] => none
  | c :: cs =>
    if Char.isDigit c &&
        ((c :: cs).drop ((c :: cs).takeWhile Char.isDigit).length).head?
          = some '년' then
      some ((c :: cs).takeWhile Char.isDigit)
    else if c = '\n' then none
    else find_digits_year cs

/-- Attempt of `r'경력.*?(\d+)년'` at one position. -/
def try_exp_pat2 (l : List Char) : Option (List Char) :=
  if "경력".data.isPrefixOf l then find_digits_year (l.drop 2) else none

/-- Attempt of `r'(\d+)년.*?정도'` at one position. -/
def try_exp_pat3 (l : List Char) : Option (List Char) :=
  let run := l.takeWhile Char.isDigit
  if 1 ≤ run.length && (l.drop run.length).head? = some '년' &&
      lazy_has ["정도"] (l.drop (run.length + 1)) then
    some run
  else none

/-- `int()` on a captured digit run. -/
def parse_digits (l : List Char) : Nat :=
  l.foldl (fun a c => a * 10 + (c.toNat - '0'.toNat)) 0

/-- Experience extraction of `SafeInterviewAnalyzer._extract_employee_info`
(src/main.py:419-432): the three patterns in order, first hit wins, no hit
leaves the default 0. -/
def extract_experience (l : List Char) : Nat :=
  match scanFirst try_exp_pat1 l with
  | some d => parse_digits d
  | none =>
    match scanFirst try_exp_pat2 l with
    | some d => parse_digits d
    | none =>
      match scanFirst try_exp_pat3 l with
      | some d => parse_digits d
      | none => 0

/-- `SafeInterviewAnalyzer._extract_employee_info` (src/main.py:385-444):
name via the regex ladder, position and department via `elif` substring
chains, experience via the regex ladder, specialty areas via four
substring tests appending in source order. -/
def extract_employee_info (text : String) : EmployeeProfile :=
  let name := extract_name text.data
  let position :=
    if strContains "대리" text then "대리"
    else if strContains "과장" text then "과장"
    else if strContains "팀장" text then "팀장"
    else ""
  let department :=
    if strContains "홍보" text then "홍보팀"
    else if strContains "상담" text then "상담팀"
    else if strContains "검안" text then "검안팀"
    else ""
  let specialty :=
    (if strContains "대학" text && strContains "제휴" text then ["대학 제휴"] else []) ++
    (if strContains "출장검진" text then ["출장검진"] else []) ++
    (if strContains "상담" text then ["고객 상담"] else []) ++
    (if strContains "축제" text then ["축제 마케팅"] else [])
  ⟨name, position, department, extract_experience text.data, specialty⟩

/-- `self.personality_markers` of `SafeInterviewAnalyzer`
(src/main.py:336-341), in dict insertion order. -/
def personality_markers : List (String × List String) :=
  [("솔직함", ["솔직하게", "사실", "정말로", "진짜"]),
   ("배려심", ["걱정하지 마시고", "편하게", "천천히", "괜찮아요"]),
   ("전문성", ["의료진과", "정확한", "전문적으로", "임상적으로"]),
   ("친근함", ["~해요", "~거든요", "~네요", "같아서"])]

/-- `self.medical_terms` of `SafeInterviewAnalyzer` (src/main.py:331-334). -/
def medical_terms : List String :=
  ["스마일라식", "라식", "라섹", "백내장", "녹내장", "망막",
   "각막", "시력교정", "검안", "안압", "OCT"]

/-- Python `max(d, key=d.get)` over the positive style scores: the first
key attaining the maximal score, in insertion order. -/
def argmaxFirst : String × Nat → List (String × Nat) → String
  | best, [] => best.1
  | best, q :: qs => if best.2 < q.2 then argmaxFirst q qs else argmaxFirst best qs

/-- `SafeInterviewAnalyzer._analyze_personality` (src/main.py:446-476):
style scores from marker containment, the dominant tone via `max` over the
positive scores, frequent expressions via `text.count(marker) >= 2`, and a
formal/casual decision from ending-marker counts. -/
def analyze_personality (text : String) : PersonalityTraits :=
  let scored := personality_markers.map
    (fun p => (p.1, (p.2.filter (fun m => strContains m text)).length))
  let positive := scored.filter (fun p => 0 < p.2)
  let tone :=
    match positive with
    | [] => ""
    | q :: qs => argmaxFirst q qs
  let keywords := positive.map (fun p => p.1)
  let frequent := ((personality_markers.map (fun p => p.2)).flatten).filter
    (fun m => 2 ≤ countOcc m.data text.data)
  let formal_count := countOcc "습니다".data text.data + countOcc "됩니다".data text.data
  let casual_count := countOcc "해요".data text.data + countOcc "거든요".data text.data
  let formality := if casual_count < formal_count then "formal" else "casual"
  ⟨tone, frequent, "", keywords, formality⟩

/-- `SafeInterviewAnalyzer._extract_knowledge` (src/main.py:478-505):
medical terms are routed to procedures when the term itself contains
`검사` (none of the eleven terms does) and to technical terms otherwise;
equipment keywords append a `관련` label; expertise level is derived from
the procedure and technical-term counts. -/
def extract_knowledge (text : String) : ProfessionalKnowledge :=
  let procedures := medical_terms.filter
    (fun t => strContains t text && strContains "검사" t)
  let technical := medical_terms.filter
    (fun t => strContains t text && !strContains "검사" t)
  let equipment := (["장비", "OCT", "검사기", "레이저"].filter
    (fun k => strContains k text)).map (fun k => k ++ " 관련")
  let cnt := procedures.length + technical.length
  let lvl := if 3 ≤ cnt then "전문가" else if 1 ≤ cnt then "숙련자" else "일반"
  ⟨procedures, equipment, [], technical, lvl⟩

/-- `SafeInterviewAnalyzer._extract_customer_insights`
(src/main.py:507-525). -/
def extract_customer_insights (text : String) : CustomerInsights :=
  let questions :=
    (if strContains "질문" text || strContains "궁금" text
     then ["검사 과정에 대한 문의"] else []) ++
    (if strContains "비용" text || strContains "가격" text
     then ["비용 관련 문의"] else [])
  let demographics :=
    (if strContains "대학생" text then ["대학생"] else []) ++
    (if strContains "직장인" text then ["직장인"] else []) ++
    (if strContains "어르신" text || strContains "노인" text
     then ["중장년층"] else [])
  ⟨questions, [], demographics⟩

/-- `SafeInterviewAnalyzer._extract_hospital_strengths`
(src/main.py:527-551). -/
def extract_hospital_strengths (text : String) : HospitalStrengths :=
  let location :=
    (if strContains "롯데타워" text || strContains "잠실" text
     then ["롯데타워 위치"] else []) ++
    (if strContains "교통" text || strContains "접근" text
     then ["교통 편의성"] else [])
  let advantages :=
    (if strContains "무사고" text || strContains "26년" text
     then ["26년 무사고 기록"] else []) ++
    (if strContains "경험" text && strContains "년" text
     then ["풍부한 경험"] else [])
  let services :=
    (if strContains "할인" text then ["학생 할인 혜택"] else []) ++
    (if strContains "축제" text then ["대학 축제 상담"] else []) ++
    (if strContains "출장" text then ["출장 검진 서비스"] else [])
  ⟨advantages, services, location⟩

/-- The five fixed confidence weights of
`SafeInterviewAnalyzer._calculate_confidence` (src/main.py:553-568), in
source order: name, position, specialty areas, procedures, experience. -/
def confidence_weights : List ℚ :=
  [3/10, 2/10, 2/10, 2/10, 1/10]

/-- `SafeInterviewAnalyzer._calculate_confidence` (src/main.py:553-568):
a weighted sum of five presence checks, clamped with `min(score, 1.0)`. -/
def calculate_confidence (employee : EmployeeProfile)
    (knowledge : ProfessionalKnowledge) : ℚ :=
  min ((if employee.name ≠ "" then (3 : ℚ)/10 else 0) +
       (if employee.position ≠ "" then 2/10 else 0) +
       (if employee.specialty_areas ≠ [] then 2/10 else 0) +
       (if knowledge.procedures ≠ [] then 2/10 else 0) +
       (if 0 < employee.experience_years then 1/10 else 0)) 1

/-- `SafeInterviewAnalyzer._create_default_result` (src/main.py:570-578):
the placeholder analysis result used for degenerate input and caught
exceptions; its metadata comes from the `__post_init__` defaults. -/
def create_default_result : InterviewAnalysisResult :=
  ⟨⟨"직원", "직원", "일반", 0, []⟩,
   ⟨"친근함", [], "", [], ""⟩,
   ⟨[], [], [], [], "일반"⟩,
   ⟨[], [], []⟩,
   ⟨[], [], []⟩,
   ⟨0, 0⟩⟩

/-- `SafeInterviewAnalyzer.analyze_interview` (src/main.py:343-377): empty
or too-short (stripped length below 10) input short-circuits to the default
placeholder; otherwise the preprocessed text is fed to the five extractors
and the metadata records the confidence score and the cleaned length.  The
surrounding `try/except` (which also degrades to the placeholder) has no
shallow counterpart: every embedded function is total. -/
def analyze_interview (interview_text : String) : InterviewAnalysisResult :=
  if interview_text = "" ∨ (String.mk (stripL interview_text.data)).length < 10 then
    create_default_result
  else
    let cleaned := preprocess_text interview_text
    let employee := extract_employee_info cleaned
    let knowledge := extract_knowledge cleaned
    ⟨employee, analyze_personality cleaned, knowledge,
     extract_customer_insights cleaned, extract_hospital_strengths cleaned,
     ⟨calculate_confidence employee knowledge, cleaned.length⟩⟩

/-- `re.sub(r'\d{2}:\d{2}', '', text)` from
`BGNInterviewAnalyzer._preprocess_text`
(src/src/analyzers/interview_analyzer.py:275-276): scan left to right,
removing each non-overlapping five-character `dd:dd` window. -/
def strip_timestamps : List Char → List Char
  | c1 :: c2 :: ':' :: c3 :: c4 :: rest =>
    if Char.isDigit c1 && Char.isDigit c2 && Char.isDigit c3 && Char.isDigit c4
    then strip_timestamps rest
    else c1 :: strip_timestamps (c2 :: ':' :: c3 :: c4 :: rest)
  | c :: cs => c :: strip_timestamps cs
  | [] => []

/-- Fuel-indexed scan for `re.sub(r'참석자\s*\d+\s*', '', text)`; every
step consumes at least one character, so fuel equal to the input length is
always enough. -/
def strip_speaker_aux : Nat → List Char → List Char
  | 0, l => l
  | _ + 1, [] => []
  | fuel + 1, c :: cs =>
    if c = '참' then
      match cs with
      | s :: j :: rest =>
        if s = '석' && j = '자' then
          let afterWs := rest.dropWhile isPySpace
          if afterWs.head?.any Char.isDigit then
            strip_speaker_aux fuel ((afterWs.dropWhile Char.isDigit).dropWhile isPySpace)
          else c :: strip_speaker_aux fuel cs
        else c :: strip_speaker_aux fuel cs
      | _ => c :: strip_speaker_aux fuel cs
    else c :: strip_speaker_aux fuel cs

/-- Speaker-label removal `re.sub(r'참석자\s*\d+\s*', '', text)` from
`BGNInterviewAnalyzer._preprocess_text`
(src/src/analyzers/interview_analyzer.py:278-279). -/
def strip_speaker (l : List Char) : List Char :=
  strip_speaker_aux l.length l

/-- `BGNInterviewAnalyzer._preprocess_text`
(src/src/analyzers/interview_analyzer.py:267-281): newline-run collapse,
whitespace-run collapse, `HH:MM` timestamp removal, speaker-label removal,
then strip. -/
def preprocess_text_analyzer (s : String) : String :=
  String.mk (stripL (strip_speaker (strip_timestamps
    (collapseRuns isPySpace ' '
      (collapseRuns (fun c => c = '\n') '\n' s.data)))))

/-- Python `str.split(sep)` for a single-character separator, keeping empty
parts, used for the `'\n'` line split of the heading substitutions. -/
def splitChar (sep : Char) : List Char → List (List Char)
  | [] => [[]]
  | c :: cs =>
    if c = sep then [] :: splitChar sep cs
    else
      match splitChar sep cs with
      | [] => [[c]]
      | p :: ps => (c :: p) :: ps

/-- Python `html.split('\n\n')` of
`SafeContentGenerator._markdown_to_html` (src/main.py:831): split on each
non-overlapping blank-line separator, keeping empty parts. -/
def split_paras : List Char → List (List Char)
  | [] => [[]]
  | [c] => [[c]]
  | c :: c2 :: cs =>
    if c = '\n' ∧ c2 = '\n' then [] :: split_paras cs
    else
      match split_paras (c2 :: cs) with
      | [] => [[c]]
      | p :: ps => (c :: p) :: ps

/-- `'\n'.join(html_paragraphs)` (src/main.py:841). -/
def join_nl : List (List Char) → List Char
  | [] => []
  | [e] => e
  | e :: es => e ++ '\n' :: join_nl es

/-- One line under the three multiline heading substitutions
`^# (.+)$`, `^## (.+)$`, `^### (.+)$` (src/main.py:823-825): the marker,
one space, and at least one further character; deeper markers fall through
to the later substitutions, other lines are untouched. -/
def heading_line (l : List Char) : List Char :=
  if "# ".data.isPrefixOf l && 2 < l.length then
    "<h1>".data ++ l.drop 2 ++ "</h1>".data
  else if "## ".data.isPrefixOf l && 3 < l.length then
    "<h2>".data ++ l.drop 3 ++ "</h2>".data
  else if "### ".data.isPrefixOf l && 4 < l.length then
    "<h3>".data ++ l.drop 4 ++ "</h3>".data
  else l

/-- The heading substitutions applied line by line (the `re.MULTILINE`
anchors make the three `re.sub` calls act per line). -/
def heading_sub (l : List Char) : List Char :=
  join_nl ((splitChar '\n' l).map heading_line)

/-- Find the first closing `**` reachable without crossing a newline:
returns the (possibly empty) content before it and the remainder after
it. -/
def star_close : List Char → Option (List Char × List Char)
  | [] => none
  | '*' :: '*' :: rest => some ([], rest)
  | '\n' :: _ => none
  | c :: cs => (star_close cs).map (fun p => (c :: p.1, p.2))

/-- Fuel-indexed scan for `re.sub(r'\*\*(.+?)\*\*', r'<strong>\1</strong>',
html)` (src/main.py:828): at an opening `**`, the lazy non-empty content
runs to the first closing `**` on the same line; a failed opener emits one
`*` and rescans from the next character, exactly like the `re` scan loop.
Every step consumes at least one input character, so fuel equal to the
input length is always enough. -/
def bold_aux : Nat → List Char → List Char
  | 0, l => l
  | _ + 1, [] => []
  | fuel + 1, '*' :: '*' :: rest =>
    (match rest with
     | r :: rs =>
       if r = '\n' then '*' :: bold_aux fuel ('*' :: rest)
       else
         match star_close rs with
         | some (content, after) =>
           "<strong>".data ++ (r :: content) ++ "</strong>".data ++ bold_aux fuel after
         | none => '*' :: bold_aux fuel ('*' :: rest)
     | [] => '*' :: bold_aux fuel ['*'])
  | fuel + 1, c :: cs => c :: bold_aux fuel cs

/-- The bold substitution over the whole text. -/
def bold_sub (l : List Char) : List Char :=
  bold_aux l.length l

/-- The paragraph stage of `SafeContentGenerator._markdown_to_html`
(src/main.py:834-839): strip each paragraph, drop empty ones, wrap a
paragraph in `<p>` tags unless it starts with `<` or ends with `>`. -/
def process_para (p : List Char) : Option (List Char) :=
  let s := stripL p
  if s = [] then none
  else if s.head? ≠ some '<' ∧ s.getLast? ≠ some '>' then
    some ("<p>".data ++ s ++ "</p>".data)
  else some s

/-- `SafeContentGenerator._markdown_to_html` (src/main.py:818-841) on
character lists: heading substitutions, bold substitution, then the
paragraph stage joined with single newlines. -/
def markdown_to_html_list (l : List Char) : List Char :=
  join_nl ((split_paras (bold_sub (heading_sub l))).filterMap process_para)

/-- `SafeContentGenerator._markdown_to_html` on strings. -/
def markdown_to_html (s : String) : String :=
  String.mk (markdown_to_html_list s.data)

/-- `SafeContentGenerator._generate_image_prompts` (src/main.py:804-812):
three fixed prompt strings appended unconditionally; the analysis argument
is never consulted. -/
def generate_image_prompts (_analysis : InterviewAnalysisResult) : List String :=
  ["Professional medical consultation in modern Korean hospital",
   "Advanced eye examination equipment in modern ophthalmology clinic",
   "Clean and modern hospital interior with comfortable patient areas"]

/-- Scenario A input from the specification (§8). -/
def scenario_a : String :=
  "저는 이예나 대리입니다. 홍보팀에서 10년째 근무하며 대학 제휴를 담당합니다."

/-- Shape of every fragment the markdown converter joins with single
newlines: non-empty, no whitespace at either end, and no two adjacent
newline characters inside. -/
def para_ok (e : List Char) : Prop :=
  e ≠ []
  ∧ (∀ c, e.head? = some c → isPySpace c = false)
  ∧ (∀ c, e.getLast? = some c → isPySpace c = false)
  ∧ List.Chain' (fun a b => a ≠ '\n' ∨ b ≠ '\n') e

/-- A fold subtracting a fixed penalty per satisfying entry computes the
start value minus the penalty times the number of satisfying entries. -/
theorem foldl_sub_filter (q : String → Bool) (c : ℚ) :
    ∀ (l : List String) (a : ℚ),
      l.foldl (fun s kw => if q kw then s - c else s) a
        = a - c * (l.filter q).length := by
  intro l
  induction l with
  | nil => intro a; simp
  | cons hd tl ih =>
    intro a
    by_cases h : q hd = true
    · rw [List.foldl_cons, if_pos h, ih, List.filter_cons_of_pos h,
        List.length_cons]
      push_cast
      ring
    · rw [List.foldl_cons, if_neg h, ih,
        List.filter_cons_of_neg (by simpa using h)]

/-- Filtering with a pointwise weaker predicate keeps at most as many
entries. -/
theorem length_filter_mono {α : Type} (l : List α) (q1 q2 : α → Bool)
    (h : ∀ x ∈ l, q1 x = true → q2 x = true) :
    (l.filter q1).length ≤ (l.filter q2).length := by
  induction l with
  | nil => simp
  | cons hd tl ih =>
    have htl : ∀ x ∈ tl, q1 x = true → q2 x = true := by
      intro x hx; exact h x (List.mem_cons_of_mem _ hx)
    by_cases h1 : q1 hd
    · have h2 : q2 hd = true := h hd (List.mem_cons_self _ _) h1
      simp only [List.filter_cons, h1, h2, if_pos, List.length_cons]
      exact Nat.succ_le_succ (ih htl)
    · simp only [List.filter_cons, h1, Bool.false_eq_true, if_neg, not_false_eq_true]
      refine le_trans (ih htl) ?_
      by_cases h2 : q2 hd <;> simp [h2]

/-- The compliance score in closed form: one minus a fifth per violation,
floored at zero. -/
theorem check_medical_compliance_closed (content : String) :
    check_medical_compliance content
      = max (1 - (1 : ℚ)/5 * (compliance_violations content).length) 0 := by
  unfold check_medical_compliance compliance_violations
  rw [foldl_sub_filter]

set_option maxRecDepth 4000 in
/-- C1 (counterexample): on a 301-character body the source computes
`max(1, 301 // 300) = 1` while the specification's
`max(1, ceil(301/300)) = 2`, so the claimed equality fails. -/
theorem c1_counterexample :
    estimated_reading_time (String.mk (List.replicate 301 'a'))
      ≠ spec_reading_time (String.mk (List.replicate 301 'a')) := by
  have h : (String.mk (List.replicate 301 'a')).length = 301 := by
    simp [String.length]
  unfold estimated_reading_time spec_reading_time
  rw [h]
  decide

/-- C1 (amended): the estimated reading time is `max(1, floor(cc/300))`;
for every body it is at least 1 and never exceeds the specification's
rounded-up value, and it agrees with it exactly when the character count
is at most 300 or divisible by 300. -/
theorem c1_theorem (s : String) :
    1 ≤ estimated_reading_time s
    ∧ estimated_reading_time s ≤ spec_reading_time s
    ∧ (estimated_reading_time s = spec_reading_time s
        ↔ s.length ≤ 300 ∨ s.length % 300 = 0) := by
  unfold estimated_reading_time spec_reading_time
  constructor
  · omega
  constructor
  · omega
  · constructor
    · intro he
      omega
    · intro hc
      omega

/-- C2: any text containing the phrase `100% 성공` gets a compliance score
strictly below 1.0 from `SafeContentGenerator._check_medical_compliance`,
the phrase appears in the violation list built by
`BGNInterviewAnalyzer._check_medical_compliance`, and that checker reports
failure. -/
theorem c2_theorem (text : String)
    (h : strContains "100% 성공" text = true) :
    check_medical_compliance text < 1
    ∧ "100% 성공" ∈ compliance_violations text
    ∧ analyzer_check_medical_compliance text = false := by
  have hmem : "100% 성공" ∈ compliance_violations text := by
    unfold compliance_violations
    exact List.mem_filter.mpr ⟨by decide, h⟩
  have hlen : 1 ≤ (compliance_violations text).length :=
    List.length_pos.mpr (List.ne_nil_of_mem hmem)
  refine ⟨?_, hmem, ?_⟩
  · rw [check_medical_compliance_closed]
    have hq : (1 : ℚ) ≤ ((compliance_violations text).length : ℚ) := by
      exact_mod_cast hlen
    apply max_lt (by linarith) (by norm_num)
  · unfold analyzer_check_medical_compliance
    simpa [List.isEmpty_iff] using List.ne_nil_of_mem hmem

/-- Witness for `c2_theorem` at a concrete sentence containing the
phrase. -/
theorem c2_witness :
    check_medical_compliance "이 시술은 100% 성공을 자랑합니다" < 1
    ∧ "100% 성공" ∈ compliance_violations "이 시술은 100% 성공을 자랑합니다"
    ∧ analyzer_check_medical_compliance "이 시술은 100% 성공을 자랑합니다" = false :=
  c2_theorem "이 시술은 100% 성공을 자랑합니다" (by decide)

/-- C3: the compliance score equals 1.0 minus 0.2 per prohibited phrase
present (floored at 0.0), lies in `[0, 1]`, is monotonically non-increasing
when more prohibited phrases occur, and equals 1.0 exactly when no
prohibited phrase occurs (the source has no secondary risky-phrase list, so
that part of the claim is vacuous). -/
theorem c3_theorem (t1 t2 : String)
    (h : ∀ kw ∈ PROHIBITED_KEYWORDS,
      strContains kw t1 = true → strContains kw t2 = true) :
    check_medical_compliance t1
      = max (1 - (1 : ℚ)/5 * (compliance_violations t1).length) 0
    ∧ 0 ≤ check_medical_compliance t1
    ∧ check_medical_compliance t1 ≤ 1
    ∧ check_medical_compliance t2 ≤ check_medical_compliance t1
    ∧ (check_medical_compliance t1 = 1 ↔ compliance_violations t1 = []) := by
  have hc1 := check_medical_compliance_closed t1
  have hc2 := check_medical_compliance_closed t2
  have hk : (compliance_violations t1).length ≤ (compliance_violations t2).length :=
    length_filter_mono _ _ _ h
  have hkq : ((compliance_violations t1).length : ℚ)
      ≤ ((compliance_violations t2).length : ℚ) := by exact_mod_cast hk
  have hpos : (0 : ℚ) ≤ ((compliance_violations t1).length : ℚ) := by positivity
  refine ⟨hc1, ?_, ?_, ?_, ?_⟩
  · rw [hc1]; exact le_max_right _ _
  · rw [hc1]
    exact max_le (by linarith) (by norm_num)
  · rw [hc1, hc2]
    exact max_le_max (by linarith) le_rfl
  · rw [hc1]
    constructor
    · intro hmax
      by_contra hne
      have hlen : 1 ≤ (compliance_violations t1).length :=
        List.length_pos.mpr hne
      have hq : (1 : ℚ) ≤ ((compliance_violations t1).length : ℚ) := by
        exact_mod_cast hlen
      have hb : max (1 - (1 : ℚ)/5 * (compliance_violations t1).length) 0 ≤ 4/5 :=
        max_le (by linarith) (by norm_num)
      rw [hmax] at hb
      norm_num at hb
    · intro he
      simp [he]

/-- Witness for `c3_theorem`: the clean text has no violations, the second
text contains `완치`. -/
theorem c3_witness :
    check_medical_compliance "안전한 진료 안내"
      = max (1 - (1 : ℚ)/5 * (compliance_violations "안전한 진료 안내").length) 0
    ∧ 0 ≤ check_medical_compliance "안전한 진료 안내"
    ∧ check_medical_compliance "안전한 진료 안내" ≤ 1
    ∧ check_medical_compliance "완치를 약속" ≤ check_medical_compliance "안전한 진료 안내"
    ∧ (check_medical_compliance "안전한 진료 안내" = 1
        ↔ compliance_violations "안전한 진료 안내" = []) :=
  c3_theorem "안전한 진료 안내" "완치를 약속" (by decide)

/-- C4 (counterexample): the analyzer's normalization is not idempotent —
removing the first `HH:MM` window of `x112:342:34` glues a new `12:34`
window together, which only the second pass removes. -/
theorem c4_counterexample :
    preprocess_text_analyzer (preprocess_text_analyzer "x112:342:34")
      ≠ preprocess_text_analyzer "x112:342:34" := by
  decide

/-- C5 (counterexample): for `"a  b  c  d  e"` the normalized length is 9,
below the threshold of 10, yet the stripped raw length is 13, so the source
runs the full extraction and returns a non-placeholder result — the claimed
short-circuit on the *normalized* length does not hold. -/
theorem c5_counterexample :
    (preprocess_text "a  b  c  d  e").length < 10
    ∧ 10 ≤ (String.mk (stripL ("a  b  c  d  e").data)).length
    ∧ analyze_interview "a  b  c  d  e" ≠ create_default_result := by
  decide

/-- C5 (amended): extraction is total (every embedded function is total by
construction), and when the input is empty or its *stripped* length is
below 10 the analyzer returns the default placeholder result. -/
theorem c5_theorem (t : String)
    (h : t = "" ∨ (String.mk (stripL t.data)).length < 10) :
    analyze_interview t = create_default_result := by
  unfold analyze_interview
  rw [if_pos h]

/-- Witness for `c5_theorem` at a concrete short input. -/
theorem c5_witness : analyze_interview "짧은 글" = create_default_result :=
  c5_theorem "짧은 글" (Or.inr (by decide))

/-- C8 (counterexample): on the Scenario A input none of the three
experience regexes matches `10년째` (the first needs `경력` or `차` after
the year, the second a leading `경력`, the third a trailing `정도`), so the
extracted experience is not 10. -/
theorem c8_counterexample :
    (analyze_interview scenario_a).employee.experience_years ≠ 10 := by
  decide

/-- C8 (amended): on the Scenario A input the extractor finds name
`이예나`, position `대리`, department `홍보팀`, specialty area `대학 제휴`
— but experience 0, because no experience pattern matches `10년째`. -/
theorem c8_theorem :
    (analyze_interview scenario_a).employee
      = ⟨"이예나", "대리", "홍보팀", 0, ["대학 제휴"]⟩ := by
  decide

/-- C9: every list-typed field of every dataclass is a concrete (possibly
empty) list after `__post_init__`: a missing (`None`) argument becomes `[]`
and a supplied list is kept; the default placeholder result has every
list-typed field empty. -/
theorem c9_theorem :
    (∀ (n p d : String) (ey : Nat) (sa : Option (List String)),
      (EmployeeProfile.ofArgs n p d ey sa).specialty_areas = sa.getD []
      ∧ (EmployeeProfile.ofArgs n p d ey none).specialty_areas = [])
    ∧ (∀ (ts cst fl : String) (fe pk : Option (List String)),
      (PersonalityTraits.ofArgs ts fe cst pk fl).frequent_expressions = fe.getD []
      ∧ (PersonalityTraits.ofArgs ts fe cst pk fl).personality_keywords = pk.getD []
      ∧ (PersonalityTraits.ofArgs ts none cst none fl).frequent_expressions = []
      ∧ (PersonalityTraits.ofArgs ts none cst none fl).personality_keywords = [])
    ∧ (∀ (pr eqp pc tt : Option (List String)) (el : String),
      (ProfessionalKnowledge.ofArgs pr eqp pc tt el).procedures = pr.getD []
      ∧ (ProfessionalKnowledge.ofArgs pr eqp pc tt el).equipment = eqp.getD []
      ∧ (ProfessionalKnowledge.ofArgs pr eqp pc tt el).processes = pc.getD []
      ∧ (ProfessionalKnowledge.ofArgs pr eqp pc tt el).technical_terms = tt.getD []
      ∧ (ProfessionalKnowledge.ofArgs none none none none el).procedures = [])
    ∧ (∀ (fq cf td : Option (List String)),
      (CustomerInsights.ofArgs fq cf td).frequent_questions = fq.getD []
      ∧ (CustomerInsights.ofArgs fq cf td).customer_feedback = cf.getD []
      ∧ (CustomerInsights.ofArgs fq cf td).target_demographics = td.getD []
      ∧ (CustomerInsights.ofArgs none none none).frequent_questions = [])
    ∧ (∀ (ca us lb : Option (List String)),
      (HospitalStrengths.ofArgs ca us lb).competitive_advantages = ca.getD []
      ∧ (HospitalStrengths.ofArgs ca us lb).unique_services = us.getD []
      ∧ (HospitalStrengths.ofArgs ca us lb).location_benefits = lb.getD []
      ∧ (HospitalStrengths.ofArgs none none none).competitive_advantages = [])
    ∧ create_default_result.employee.specialty_areas = []
    ∧ create_default_result.personality.frequent_expressions = []
    ∧ create_default_result.personality.personality_keywords = []
    ∧ create_default_result.knowledge.procedures = []
    ∧ create_default_result.knowledge.equipment = []
    ∧ create_default_result.knowledge.processes = []
    ∧ create_default_result.knowledge.technical_terms = []
    ∧ create_default_result.customer_insights.frequent_questions = []
    ∧ create_default_result.customer_insights.customer_feedback = []
    ∧ create_default_result.customer_insights.target_demographics = []
    ∧ create_default_result.hospital_strengths.competitive_advantages = []
    ∧ create_default_result.hospital_strengths.unique_services = []
    ∧ create_default_result.hospital_strengths.location_benefits = [] :=
  ⟨fun _ _ _ _ _ => ⟨rfl, rfl⟩,
   fun _ _ _ _ _ => ⟨rfl, rfl, rfl, rfl⟩,
   fun _ _ _ _ _ => ⟨rfl, rfl, rfl, rfl, rfl⟩,
   fun _ _ _ => ⟨rfl, rfl, rfl, rfl⟩,
   fun _ _ _ => ⟨rfl, rfl, rfl, rfl⟩,
   rfl, rfl, rfl, rfl, rfl, rfl, rfl, rfl, rfl, rfl, rfl, rfl, rfl⟩

/-- C10: image-prompt generation ignores its analysis argument entirely —
any two analysis results yield the identical fixed ordered list of exactly
three prompt strings. -/
theorem c10_theorem (a b : InterviewAnalysisResult) :
    generate_image_prompts a = generate_image_prompts b
    ∧ generate_image_prompts a
      = ["Professional medical consultation in modern Korean hospital",
         "Advanced eye examination equipment in modern ophthalmology clinic",
         "Clean and modern hospital interior with comfortable patient areas"]
    ∧ (generate_image_prompts a).length = 3 :=
  ⟨rfl, rfl, rfl⟩

/-- C6: the confidence score is a weighted sum of the five presence checks
with weights summing to at most 1.0, clamped to the unit interval, and a
fact with a detected name, position and two specialty areas scores at least
as high as the same fact with none of those detected. -/
theorem c6_theorem (e : EmployeeProfile) (k : ProfessionalKnowledge)
    (h1 : e.name ≠ "") (h2 : e.position ≠ "")
    (h3 : e.specialty_areas.length = 2) :
    0 ≤ calculate_confidence e k
    ∧ calculate_confidence e k ≤ 1
    ∧ confidence_weights.sum ≤ 1
    ∧ calculate_confidence
        { e with name := "", position := "", specialty_areas := [] } k
      ≤ calculate_confidence e k := by
  have h3' : e.specialty_areas ≠ [] := by
    intro hnil
    rw [hnil] at h3
    simp at h3
  refine ⟨?_, min_le_right _ _, by norm_num [confidence_weights], ?_⟩
  · unfold calculate_confidence
    apply le_min _ (by norm_num)
    split_ifs <;> norm_num
  · unfold calculate_confidence
    apply min_le_min _ le_rfl
    simp only [h1, h2, h3', ne_eq, not_false_eq_true, if_true, if_pos]
    split_ifs <;> norm_num

/-- Witness for `c6_theorem` at a concrete profile with name, position and
two specialty areas. -/
theorem c6_witness :
    0 ≤ calculate_confidence ⟨"김민", "대리", "", 0, ["대학 제휴", "고객 상담"]⟩
          ⟨[], [], [], [], ""⟩
    ∧ calculate_confidence ⟨"김민", "대리", "", 0, ["대학 제휴", "고객 상담"]⟩
          ⟨[], [], [], [], ""⟩ ≤ 1
    ∧ confidence_weights.sum ≤ 1
    ∧ calculate_confidence ⟨"", "", "", 0, []⟩ ⟨[], [], [], [], ""⟩
      ≤ calculate_confidence ⟨"김민", "대리", "", 0, ["대학 제휴", "고객 상담"]⟩
          ⟨[], [], [], [], ""⟩ :=
  c6_theorem ⟨"김민", "대리", "", 0, ["대학 제휴", "고객 상담"]⟩
    ⟨[], [], [], [], ""⟩ (by decide) (by decide) (by decide)

/-- Every character in the output of `collapseRuns` that satisfies `p` is
the replacement character. -/
theorem collapseRuns_mem_rep (p : Char → Bool) (rep : Char) :
    ∀ l, ∀ c ∈ collapseRuns p rep l, p c = true → c = rep := by
  intro l
  induction l with
  | nil => intro c hc; simp [collapseRuns] at hc
  | cons a t ih =>
    intro c hc hpc
    by_cases hpa : p a = true
    · by_cases hh : t.head?.any p = true
      · rw [collapseRuns, if_pos hpa, if_pos hh] at hc
        exact ih c hc hpc
      · rw [collapseRuns, if_pos hpa, if_neg hh] at hc
        rcases List.mem_cons.mp hc with h | h
        · exact h
        · exact ih c h hpc
    · rw [collapseRuns, if_neg hpa] at hc
      rcases List.mem_cons.mp hc with h | h
      · rw [h] at hpc; exact absurd hpc hpa
      · exact ih c h hpc

/-- In the output of `collapseRuns` no two adjacent characters both
satisfy `p`. -/
theorem collapseRuns_chain (p : Char → Bool) (rep : Char) :
    ∀ l, List.Chain' (fun a b => p a = false ∨ p b = false)
      (collapseRuns p rep l) := by
  intro l
  induction l with
  | nil => simp [collapseRuns]
  | cons a t ih =>
    by_cases hpa : p a = true
    · by_cases hh : t.head?.any p = true
      · rw [collapseRuns, if_pos hpa, if_pos hh]
        exact ih
      · rw [collapseRuns, if_pos hpa, if_neg hh]
        refine List.chain'_cons'.mpr ⟨?_, ih⟩
        intro y hy
        cases t with
        | nil => simp [collapseRuns] at hy
        | cons b t2 =>
          have hpb : p b = false := by
            simp [Option.any] at hh
            exact hh
          rw [collapseRuns, if_neg (by simp [hpb])] at hy
          simp at hy
          rw [← hy]
          exact Or.inr hpb
    · rw [collapseRuns, if_neg hpa]
      refine List.chain'_cons'.mpr ⟨?_, ih⟩
      intro y _
      exact Or.inl (by simpa using hpa)

/-- `collapseRuns` is the identity on lists where every `p`-character is
already the replacement and no two adjacent characters satisfy `p`. -/
theorem collapseRuns_id (p : Char → Bool) (rep : Char) :
    ∀ l, (∀ c ∈ l, p c = true → c = rep) →
      List.Chain' (fun a b => p a = false ∨ p b = false) l →
      collapseRuns p rep l = l := by
  intro l
  induction l with
  | nil => intro _ _; rfl
  | cons a t ih =>
    intro hmem hchain
    have hchain' := List.chain'_cons'.mp hchain
    by_cases hpa : p a = true
    · have ha : a = rep := hmem a (List.mem_cons_self _ _) hpa
      have hh : t.head?.any p = false := by
        cases t with
        | nil => rfl
        | cons b t2 =>
          have := hchain'.1 b rfl
          rcases this with h | h
          · rw [hpa] at h; cases h
          · simp [Option.any, h]
      rw [collapseRuns, if_pos hpa, if_neg (by simp [hh]), ha]
      congr 1
      exact ih (fun c hc => hmem c (List.mem_cons_of_mem _ hc)) hchain'.2
    · rw [collapseRuns, if_neg hpa]
      congr 1
      exact ih (fun c hc => hmem c (List.mem_cons_of_mem _ hc)) hchain'.2

/-- `collapseRuns` is the identity when no character satisfies `p`. -/
theorem collapseRuns_id_of_all_false (p : Char → Bool) (rep : Char)
    (l : List Char) (h : ∀ c ∈ l, p c = false) :
    collapseRuns p rep l = l := by
  apply collapseRuns_id
  · intro c hc hpc
    rw [h c hc] at hpc
    cases hpc
  · induction l with
    | nil => exact List.chain'_nil
    | cons a t ih =>
      refine List.chain'_cons'.mpr ⟨?_, ?_⟩
      · intro y _
        exact Or.inl (h a (List.mem_cons_self _ _))
      · exact ih (fun c hc => h c (List.mem_cons_of_mem _ hc))

/-- The head of a `dropWhile` result never satisfies the dropped
predicate. -/
theorem dropWhile_head_false (q : Char → Bool) :
    ∀ (l : List Char) (c : Char),
      (l.dropWhile q).head? = some c → q c = false := by
  intro l
  induction l with
  | nil => intro c hc; simp at hc
  | cons a t ih =>
    intro c hc
    by_cases hqa : q a = true
    · rw [List.dropWhile_cons_of_pos hqa] at hc
      exact ih c hc
    · rw [List.dropWhile_cons_of_neg hqa] at hc
      simp at hc
      rw [← hc]
      simpa using hqa

/-- A non-empty `dropWhile` result keeps the last element of the input. -/
theorem dropWhile_getLast? (q : Char → Bool) :
    ∀ l : List Char,
      l.dropWhile q ≠ [] → (l.dropWhile q).getLast? = l.getLast? := by
  intro l
  induction l with
  | nil => intro h; simp at h
  | cons a t ih =>
    intro h
    by_cases hqa : q a = true
    · rw [List.dropWhile_cons_of_pos hqa] at h ⊢
      have ht : t ≠ [] := by
        intro he
        rw [he] at h
        simp at h
      cases t with
      | nil => exact absurd rfl ht
      | cons b t2 => rw [ih h, List.getLast?_cons_cons]
    · rw [List.dropWhile_cons_of_neg hqa] at h ⊢

/-- `stripL` produces an infix of its input. -/
theorem stripL_within (l : List Char) : stripL l <:+: l := by
  unfold stripL
  have h1 : l.dropWhile isPySpace <:+ l := List.dropWhile_suffix _
  have h2 : (l.dropWhile isPySpace).reverse.dropWhile isPySpace
      <:+ (l.dropWhile isPySpace).reverse := List.dropWhile_suffix _
  have h3 : ((l.dropWhile isPySpace).reverse.dropWhile isPySpace).reverse
      <+: l.dropWhile isPySpace := by
    rw [← List.reverse_suffix]
    simpa using h2
  exact h3.isInfix.trans h1.isInfix

/-- The first character of a stripped list is never whitespace. -/
theorem stripL_head_false (l : List Char) (c : Char)
    (hc : (stripL l).head? = some c) : isPySpace c = false := by
  unfold stripL at hc
  rw [List.head?_reverse] at hc
  have hne : (l.dropWhile isPySpace).reverse.dropWhile isPySpace ≠ [] := by
    intro he
    rw [he] at hc
    simp at hc
  rw [dropWhile_getLast? _ _ hne, List.getLast?_reverse] at hc
  exact dropWhile_head_false _ _ _ hc

/-- The last character of a stripped list is never whitespace. -/
theorem stripL_getLast_false (l : List Char) (c : Char)
    (hc : (stripL l).getLast? = some c) : isPySpace c = false := by
  unfold stripL at hc
  rw [List.getLast?_reverse] at hc
  exact dropWhile_head_false _ _ _ hc

/-- `dropWhile` is the identity when the head does not satisfy the
predicate. -/
theorem dropWhile_id_of_head (q : Char → Bool) (l : List Char)
    (h : ∀ c, l.head? = some c → q c = false) : l.dropWhile q = l := by
  cases l with
  | nil => rfl
  | cons a t => exact List.dropWhile_cons_of_neg (by simp [h a rfl])

/-- `stripL` is the identity on lists whose first and last characters are
not whitespace. -/
theorem stripL_id (l : List Char)
    (hh : ∀ c, l.head? = some c → isPySpace c = false)
    (hl : ∀ c, l.getLast? = some c → isPySpace c = false) :
    stripL l = l := by
  unfold stripL
  rw [dropWhile_id_of_head _ _ hh]
  rw [dropWhile_id_of_head _ _ (by simpa [List.head?_reverse] using hl)]
  exact List.reverse_reverse l

/-- C4 (amended): the main-script normalization (`re.sub(r'\n+','\n')`,
`re.sub(r'\s+',' ')`, `strip`) is idempotent for every input; the
analyzer's variant with timestamp and speaker-label removal is not (see
the counterexample). -/
theorem c4_theorem (s : String) :
    preprocess_text (preprocess_text s) = preprocess_text s := by
  unfold preprocess_text
  set x := collapseRuns isPySpace ' '
    (collapseRuns (fun c => c = '\n') '\n' s.data) with hx
  have hmem : ∀ c ∈ stripL x, isPySpace c = true → c = ' ' := by
    intro c hc hpc
    exact collapseRuns_mem_rep _ _ _ c (List.IsInfix.subset (stripL_within x) hc) hpc
  have hchain : List.Chain'
      (fun a b => isPySpace a = false ∨ isPySpace b = false) (stripL x) :=
    List.Chain'.infix (collapseRuns_chain _ _ _) (stripL_within x)
  have h1 : collapseRuns (fun c => c = '\n') '\n' (stripL x) = stripL x := by
    apply collapseRuns_id_of_all_false
    intro c hc
    by_cases hcn : c = '\n'
    · exfalso
      have hsp : isPySpace c = true := by rw [hcn]; decide
      have hrep := hmem c hc hsp
      rw [hcn] at hrep
      exact absurd hrep (by decide)
    · simp [hcn]
  have h2 : collapseRuns isPySpace ' ' (stripL x) = stripL x :=
    collapseRuns_id _ _ _ hmem hchain
  have h3 : stripL (stripL x) = stripL x :=
    stripL_id _ (stripL_head_false x) (stripL_getLast_false x)
  show String.mk (stripL (collapseRuns isPySpace ' '
      (collapseRuns (fun c => c = '\n') '\n' (stripL x)))) = String.mk (stripL x)
  rw [h1, h2, h3]

/-- C7 (counterexample): the conversion output for `"a>\n\n<b"` is
`"a>\n<b"`, which contains no markdown marker; a second application treats
the whole output as a single paragraph (the blank line is gone), and since
it neither starts with `<` nor ends with `>` it gets wrapped in paragraph
tags — the conversion is not idempotent on its own marker-free output, and
the line starting with a tag character is wrapped a second time. -/
theorem c7_counterexample :
    markdown_to_html (markdown_to_html "a>\n\n<b")
      ≠ markdown_to_html "a>\n\n<b" := by
  decide

/-- `split_paras` never returns an empty list of parts. -/
theorem split_paras_ne_nil : ∀ l, split_paras l ≠ []
  | [] => by simp [split_paras]
  | [c] => by simp [split_paras]
  | c :: c2 :: cs => by
    rw [split_paras]
    by_cases h : c = '\n' ∧ c2 = '\n'
    · rw [if_pos h]; simp
    · rw [if_neg h]
      cases hs : split_paras (c2 :: cs) with
      | nil => simp
      | cons p ps => simp

/-- Parts produced by `split_paras` contain no two adjacent newlines, and
a non-empty first part starts with the first character of the input. -/
theorem split_paras_elems : ∀ l : List Char,
    (∀ q ∈ split_paras l, List.Chain' (fun a b => a ≠ '\n' ∨ b ≠ '\n') q)
    ∧ (∀ q qs, split_paras l = q :: qs → q.head? = none ∨ q.head? = l.head?)
  | [] => by
    constructor
    · intro q hq
      simp [split_paras] at hq
      simp [hq]
    · intro q qs h
      simp [split_paras] at h
      simp [h.1]
  | [c] => by
    constructor
    · intro q hq
      simp [split_paras] at hq
      simp [hq]
    · intro q qs h
      simp [split_paras] at h
      simp [h.1]
  | c :: c2 :: cs => by
    by_cases h : c = '\n' ∧ c2 = '\n'
    · have ih := split_paras_elems cs
      constructor
      · intro q hq
        rw [split_paras, if_pos h] at hq
        rcases List.mem_cons.mp hq with hq | hq
        · simp [hq]
        · exact ih.1 q hq
      · intro q qs hsp
        rw [split_paras, if_pos h] at hsp
        have hq : q = [] := ((List.cons.injEq _ _ _ _).mp hsp).1.symm
        left
        rw [hq]
        rfl
    · have ih := split_paras_elems (c2 :: cs)
      cases hs : split_paras (c2 :: cs) with
      | nil => exact absurd hs (split_paras_ne_nil _)
      | cons p ps =>
        have hphead : p.head? = none ∨ p.head? = some c2 := ih.2 p ps hs
        constructor
        · intro q hq
          rw [split_paras, if_neg h, hs] at hq
          rcases List.mem_cons.mp hq with hq | hq
          · rw [hq]
            refine List.chain'_cons'.mpr ⟨?_, ?_⟩
            · intro y hy
              rcases hphead with hp | hp
              · rw [hp] at hy; cases hy
              · rw [hp] at hy
                have hyc : c2 = y := by simpa using hy
                rw [← hyc]
                by_cases hcn : c = '\n'
                · right
                  intro hc2
                  exact h ⟨hcn, hc2⟩
                · exact Or.inl hcn
            · exact ih.1 p (by rw [hs]; exact List.mem_cons_self _ _)
          · exact ih.1 q (by rw [hs]; exact List.mem_cons_of_mem _ hq)
        · intro q qs hsp
          rw [split_paras, if_neg h, hs] at hsp
          have hq : q = c :: p := ((List.cons.injEq _ _ _ _).mp hsp).1.symm
          right
          rw [hq]
          rfl

/-- `split_paras` returns the whole input as its single part when the
input contains no two adjacent newlines. -/
theorem split_paras_id : ∀ l : List Char,
    List.Chain' (fun a b => a ≠ '\n' ∨ b ≠ '\n') l → split_paras l = [l]
  | [] => by intro _; rfl
  | [c] => by intro _; rfl
  | c :: c2 :: cs => by
    intro hchain
    have hcc := List.chain'_cons'.mp hchain
    have h : ¬(c = '\n' ∧ c2 = '\n') := by
      intro hand
      rcases hcc.1 c2 rfl with hne | hne
      · exact hne hand.1
      · exact hne hand.2
    rw [split_paras, if_neg h, split_paras_id (c2 :: cs) hcc.2]

/-- Joining well-shaped fragments with single newlines yields a
well-shaped result: non-empty, no whitespace at either end, and no two
adjacent newlines anywhere. -/
theorem join_nl_props : ∀ es : List (List Char),
    (∀ e ∈ es, para_ok e) → es ≠ [] → para_ok (join_nl es)
  | [], _, hne => absurd rfl hne
  | [e], hall, _ => by
    rw [join_nl]
    exact hall e (List.mem_cons_self _ _)
  | e :: e2 :: rest, hall, _ => by
    have he : para_ok e := hall e (List.mem_cons_self _ _)
    have hJ : para_ok (join_nl (e2 :: rest)) :=
      join_nl_props (e2 :: rest)
        (fun x hx => hall x (List.mem_cons_of_mem _ hx)) (by simp)
    show para_ok (e ++ '\n' :: join_nl (e2 :: rest))
    obtain ⟨hene, hehead, helast, hechain⟩ := he
    obtain ⟨hJne, hJhead, hJlast, hJchain⟩ := hJ
    refine ⟨by simp [hene], ?_, ?_, ?_⟩
    · intro c hc
      cases e with
      | nil => exact absurd rfl hene
      | cons a t =>
        rw [List.cons_append] at hc
        simp at hc
        exact hehead c (by rw [← hc]; rfl)
    · intro c hc
      rw [List.getLast?_append_of_ne_nil _ (by simp)] at hc
      cases hJ2 : join_nl (e2 :: rest) with
      | nil => exact absurd hJ2 hJne
      | cons b t2 =>
        rw [hJ2, List.getLast?_cons_cons] at hc
        exact hJlast c (by rw [hJ2]; exact hc)
    · refine List.Chain'.append hechain ?_ ?_
      · refine List.chain'_cons'.mpr ⟨?_, hJchain⟩
        intro y hy
        right
        intro hyn
        have := hJhead y hy
        rw [hyn] at this
        exact absurd this (by decide)
      · intro x hx y hy
        left
        intro hxn
        have := helast x hx
        rw [hxn] at this
        exact absurd this (by decide)

/-- Every fragment that survives the paragraph stage is well shaped:
wrapped fragments start with `<` and end with `>`, kept fragments are
stripped and non-empty, and neither contains two adjacent newlines. -/
theorem processed_elem_props (x : List Char) :
    ∀ e ∈ (split_paras x).filterMap process_para, para_ok e := by
  intro e he
  rcases List.mem_filterMap.mp he with ⟨p, hp, hpe⟩
  have hpchain : List.Chain' (fun a b => a ≠ '\n' ∨ b ≠ '\n') p :=
    (split_paras_elems x).1 p hp
  have hschain : List.Chain' (fun a b => a ≠ '\n' ∨ b ≠ '\n') (stripL p) :=
    List.Chain'.infix hpchain (stripL_within p)
  have hopen : List.Chain' (fun a b => a ≠ '\n' ∨ b ≠ '\n') "<p>".data :=
    List.chain'_cons.mpr ⟨Or.inl (by decide),
      List.chain'_cons.mpr ⟨Or.inl (by decide), List.chain'_singleton _⟩⟩
  have hclose : List.Chain' (fun a b => a ≠ '\n' ∨ b ≠ '\n') "</p>".data :=
    List.chain'_cons.mpr ⟨Or.inl (by decide),
      List.chain'_cons.mpr ⟨Or.inl (by decide),
        List.chain'_cons.mpr ⟨Or.inl (by decide), List.chain'_singleton _⟩⟩⟩
  unfold process_para at hpe
  by_cases hnil : stripL p = []
  · rw [if_pos hnil] at hpe
    cases hpe
  · rw [if_neg hnil] at hpe
    by_cases hwrap : (stripL p).head? ≠ some '<' ∧ (stripL p).getLast? ≠ some '>'
    · rw [if_pos hwrap] at hpe
      have he' : e = "<p>".data ++ stripL p ++ "</p>".data :=
        (Option.some.injEq _ _ ▸ hpe).symm
      subst he'
      refine ⟨by simp, ?_, ?_, ?_⟩
      · intro c hc
        have hc' : '<' = c := by simpa using hc
        rw [← hc']; rfl
      · intro c hc
        rw [List.append_assoc,
          List.getLast?_append_of_ne_nil _ (by simp)] at hc
        have hc' : '>' = c := by simpa using hc
        rw [← hc']; rfl
      · rw [List.append_assoc]
        refine List.Chain'.append hopen ?_ ?_
        · refine List.Chain'.append hschain hclose ?_
          intro a _ b hb
          have hb' : '<' = b := by simpa using hb
          rw [← hb']
          right
          decide
        · intro a ha b hb
          have ha' : '>' = a := by simpa using ha
          rw [← ha']
          left
          decide
    · rw [if_neg hwrap] at hpe
      have he' : e = stripL p := (Option.some.injEq _ _ ▸ hpe).symm
      subst he'
      exact ⟨hnil, stripL_head_false p, stripL_getLast_false p, hschain⟩

/-- C7 (amended): the markdown conversion is idempotent on an output on
which the heading and bold substitutions act as the identity (no markers
left), provided that output is empty, starts with `<`, or ends with `>`;
otherwise a second application wraps the whole output — whose blank-line
separators are gone — in a single pair of paragraph tags (see the
counterexample). -/
theorem c7_theorem (m : String)
    (hh : heading_sub (markdown_to_html m).data = (markdown_to_html m).data)
    (hb : bold_sub (markdown_to_html m).data = (markdown_to_html m).data)
    (hc : markdown_to_html m = ""
      ∨ (markdown_to_html m).data.head? = some '<'
      ∨ (markdown_to_html m).data.getLast? = some '>') :
    markdown_to_html (markdown_to_html m) = markdown_to_html m := by
  have hdata : (markdown_to_html m).data
      = join_nl ((split_paras (bold_sub (heading_sub m.data))).filterMap
          process_para) := rfl
  cases hes : (split_paras (bold_sub (heading_sub m.data))).filterMap
      process_para with
  | nil =>
    have hempty : markdown_to_html m = "" := by
      unfold markdown_to_html markdown_to_html_list
      rw [hes]
      rfl
    rw [hempty]
    decide
  | cons e0 es0 =>
    have hok : para_ok (markdown_to_html m).data := by
      rw [hdata, hes]
      exact join_nl_props (e0 :: es0)
        (fun x hx => processed_elem_props (bold_sub (heading_sub m.data)) x
          (by rw [hes]; exact hx))
        (by simp)
    obtain ⟨hne, hhead, hlast, hchain⟩ := hok
    have hstrip : stripL (markdown_to_html m).data = (markdown_to_html m).data :=
      stripL_id _ hhead hlast
    have hcond : ¬((markdown_to_html m).data.head? ≠ some '<'
        ∧ (markdown_to_html m).data.getLast? ≠ some '>') := by
      rcases hc with h0 | h0 | h0
      · exact absurd (show (markdown_to_html m).data = [] by rw [h0]) hne
      · intro hand; exact hand.1 h0
      · intro hand; exact hand.2 h0
    have hproc : process_para (markdown_to_html m).data
        = some (markdown_to_html m).data := by
      unfold process_para
      simp only [hstrip]
      rw [if_neg hne, if_neg hcond]
    show String.mk (markdown_to_html_list (markdown_to_html m).data)
        = markdown_to_html m
    unfold markdown_to_html_list
    rw [hh, hb, split_paras_id _ hchain]
    simp only [List.filterMap_cons, hproc, List.filterMap_nil]
    rfl

/-- Witness for `c7_theorem` at the concrete input `"# Title"`, whose
conversion `"<h1>Title</h1>"` has no remaining markers and starts with a
tag character. -/
theorem c7_witness :
    markdown_to_html (markdown_to_html "# Title") = markdown_to_html "# Title" :=
  c7_theorem "# Title" (by decide) (by decide) (Or.inr (Or.inl (by decide)))
